import Mathlib

/-!
Verification of the WebScrapBook archive-page viewer (src/viewer/view.js).

The JavaScript source is shallowly embedded: strings are modelled as lists
of Unicode codepoints (`List Nat`), the mutable `viewer` maps become an
explicit state record threaded through the functions, and the async
recursion (`fetchPage` / `parseDocument` / `processCssText`) becomes a
fuel-indexed mutual recursion whose tasks are executed after the document
scan, mirroring the source's task-list-then-join structure.

Platform primitives (`new URL`, `encodeURIComponent`, `URL.createObjectURL`)
and collaborator helpers from the repository's shared `scrapbook` library
(`splitUrl`, `splitUrlByAnchor`, `parseHeaderRefresh`, `escapeHtml`,
`rewriteSrcset`, the CSS tokenizer behind `rewriteCssText`,
`decodeURIComponent`) are not part of the single source file; each such
definition is marked `Modelled from the spec:` in its doc comment.
-/

/-- Codepoints of a string literal; the model of JS strings is `List Nat`. -/
def cp (s : String) : List Nat := s.toList.map Char.toNat

/-- Valid Unicode scalar value (what a well-formed JS string's codepoints are). -/
def ValidCP (n : Nat) : Prop := n < 55296 ∨ (57344 ≤ n ∧ n < 1114112)

instance (n : Nat) : Decidable (ValidCP n) := by
  unfold ValidCP; infer_instance

/-- ASCII lower-casing of a codepoint, as `String.prototype.toLowerCase`
on ASCII tag/attribute names. -/
def lowCP (n : Nat) : Nat := if 65 ≤ n ∧ n ≤ 90 then n + 32 else n

/-- ASCII lower-casing of a codepoint string. -/
def lowerCP (s : List Nat) : List Nat := s.map lowCP

/-- Boolean string-prefix test (JS `String.prototype.startsWith`). -/
def prefixOfCP : List Nat → List Nat → Bool
  | [], _ => true
  | _ :: _, [] => false
  | a :: as, b :: bs => a == b && prefixOfCP as bs

/-- Split a codepoint string at every occurrence of separator `sep`
(JS `String.prototype.split`). -/
def splitSep (sep : Nat) : List Nat → List (List Nat)
  | [] => [[]]
  | c :: rest =>
    let r := splitSep sep rest
    if c = sep then [] :: r
    else match r with
      | [] => [[c]]
      | s :: ss => (c :: s) :: ss

/-- Join codepoint strings with separator `sep` (JS `Array.prototype.join`). -/
def joinSep (sep : Nat) : List (List Nat) → List Nat
  | [] => []
  | [s] => s
  | s :: rest => s ++ sep :: joinSep sep rest

/-- Split at the first occurrence of `c`: the second component starts with
`c` when present (so fragment/query markers stay attached). -/
def splitAtFirst (c : Nat) : List Nat → List Nat × List Nat
  | [] => ([], [])
  | x :: rest =>
    if x = c then ([], x :: rest)
    else
      let p := splitAtFirst c rest
      (x :: p.1, p.2)

/-- First-match association-list lookup; JS `Map.get` where fresh keys are
prepended on `Map.set`. -/
def lookupAssoc {α : Type} (m : List (List Nat × α)) (k : List Nat) : Option α :=
  match m with
  | [] => none
  | (k', v) :: rest => if k' = k then some v else lookupAssoc rest k

/-! ## Percent-encoding and UTF-8 (platform `encodeURIComponent` and the
collaborator's forgiving `decodeURIComponent`) -/

/-- UTF-8 bytes of one codepoint. -/
def utf8Bytes (n : Nat) : List Nat :=
  if n < 128 then [n]
  else if n < 2048 then [192 + n / 64, 128 + n % 64]
  else if n < 65536 then [224 + n / 4096, 128 + (n / 64) % 64, 128 + n % 64]
  else [240 + n / 262144, 128 + (n / 4096) % 64, 128 + (n / 64) % 64, 128 + n % 64]

/-- Uppercase hexadecimal digit codepoint for a value below 16. -/
def hexU (b : Nat) : Nat := if b < 10 then 48 + b else 55 + b

/-- Numeric value of a hexadecimal digit codepoint. -/
def hexVal (c : Nat) : Nat :=
  if 48 ≤ c ∧ c ≤ 57 then c - 48
  else if 65 ≤ c ∧ c ≤ 70 then c - 55
  else if 97 ≤ c ∧ c ≤ 102 then c - 87
  else 0

/-- Hexadecimal digit test. -/
def isHexCP (c : Nat) : Bool :=
  (48 ≤ c && c ≤ 57) || (65 ≤ c && c ≤ 70) || (97 ≤ c && c ≤ 102)

/-- Percent-escape of one byte. -/
def pctEnc (b : Nat) : List Nat := [37, hexU (b / 16), hexU (b % 16)]

/-- Unreserved characters of `encodeURIComponent`:
alphanumerics and `- _ . ! ~ * ' ( )`. -/
def isUnreservedCP (c : Nat) : Bool :=
  (65 ≤ c && c ≤ 90) || (97 ≤ c && c ≤ 122) || (48 ≤ c && c ≤ 57) ||
  c == 45 || c == 95 || c == 46 || c == 33 || c == 126 || c == 42 ||
  c == 39 || c == 40 || c == 41

/-- Platform `encodeURIComponent` on codepoints: unreserved characters pass
through, everything else is percent-escaped byte-by-byte in UTF-8. -/
def encodeURIComponentCP : List Nat → List Nat
  | [] => []
  | c :: rest =>
    (if isUnreservedCP c then [c] else (utf8Bytes c).flatMap pctEnc) ++
      encodeURIComponentCP rest

mutual

/-- UTF-8 decoder, lead-byte state: malformed sequences produce the
replacement character 65533 so the decoder is total (§4.3 demands
resolution never raise). -/
def u8go : List Nat → List Nat
  | [] => []
  | b :: rest =>
    if b < 128 then b :: u8go rest
    else if 194 ≤ b ∧ b ≤ 223 then u8c1 (b - 192) rest
    else if 224 ≤ b ∧ b ≤ 239 then u8c2 (b - 224) rest
    else if 240 ≤ b ∧ b ≤ 244 then u8c3 (b - 240) rest
    else 65533 :: u8go rest
termination_by structural l => l

/-- UTF-8 decoder, one continuation byte expected. -/
def u8c1 : Nat → List Nat → List Nat
  | _, [] => [65533]
  | acc, b :: rest =>
    if 128 ≤ b ∧ b ≤ 191 then (acc * 64 + (b - 128)) :: u8go rest
    else 65533 :: u8go rest
termination_by structural _ l => l

/-- UTF-8 decoder, two continuation bytes expected. -/
def u8c2 : Nat → List Nat → List Nat
  | _, [] => [65533]
  | acc, b :: rest =>
    if 128 ≤ b ∧ b ≤ 191 then u8c1 (acc * 64 + (b - 128)) rest
    else 65533 :: u8go rest
termination_by structural _ l => l

/-- UTF-8 decoder, three continuation bytes expected. -/
def u8c3 : Nat → List Nat → List Nat
  | _, [] => [65533]
  | acc, b :: rest =>
    if 128 ≤ b ∧ b ≤ 191 then u8c2 (acc * 64 + (b - 128)) rest
    else 65533 :: u8go rest
termination_by structural _ l => l

end

/-- Total UTF-8 decoding of a byte list. -/
def utf8Decode (l : List Nat) : List Nat := u8go l

/-- Replace each percent-escape by its byte, tagging bytes `true` and
literal characters `false`. -/
def pctUnescape : List Nat → List (Bool × Nat)
  | [] => []
  | 37 :: h1 :: h2 :: rest =>
    if isHexCP h1 && isHexCP h2 then
      (true, hexVal h1 * 16 + hexVal h2) :: pctUnescape rest
    else (false, 37) :: pctUnescape (h1 :: h2 :: rest)
  | c :: rest => (false, c) :: pctUnescape rest

/-- Decode maximal runs of unescaped bytes as UTF-8, keeping literal
characters; the first argument accumulates the current byte run reversed. -/
def groupDec : List Nat → List (Bool × Nat) → List Nat
  | acc, [] => utf8Decode acc.reverse
  | acc, (true, b) :: rest => groupDec (b :: acc) rest
  | acc, (false, c) :: rest => utf8Decode acc.reverse ++ c :: groupDec [] rest

/-- Model of the repository's forgiving percent-decoder
(`scrapbook.decodeURIComponent`). Modelled from the spec: §4.1 says
`fromVirtualUrl` "percent-decodes each segment" and §4.3 demands the
resolver never raise; maximal runs of percent-escapes are decoded as UTF-8,
malformed escapes or byte sequences are kept total via literal passthrough
and the replacement character rather than an exception. -/
def decodeURIComponentCP (l : List Nat) : List Nat := groupDec [] (pctUnescape l)

/-! ## URL model (platform `new URL`, hierarchical schemes) -/

/-- Parsed URL: `scheme://auth/seg0/seg1...?search#hash`. The `search` and
`hash` components carry their leading `?` / `#` when nonempty, as the JS
`URL.search` / `URL.hash` accessors do. -/
structure URLRec where
  scheme : List Nat
  auth : List Nat
  segs : List (List Nat)
  search : List Nat
  hash : List Nat
deriving Repr, DecidableEq

/-- Serialization back to a string (JS `URL.href`). -/
def urlHref (u : URLRec) : List Nat :=
  u.scheme ++ cp "://" ++ u.auth ++ 47 :: joinSep 47 u.segs ++ u.search ++ u.hash

/-- Characters allowed in a URL scheme. -/
def isSchemeCP (c : Nat) : Bool :=
  (65 ≤ c && c ≤ 90) || (97 ≤ c && c ≤ 122) || (48 ≤ c && c ≤ 57) ||
  c == 43 || c == 45 || c == 46

/-- ASCII letter test. -/
def isLetterCP (c : Nat) : Bool := (65 ≤ c && c ≤ 90) || (97 ≤ c && c ≤ 122)

/-- Dot-segment removal of path resolution (`.` skipped, `..` pops; a
trailing dot segment leaves a trailing empty segment). -/
def removeDotSegs (segs : List (List Nat)) : List (List Nat) :=
  let core := segs.foldl (fun acc s =>
    if s = cp "." then acc
    else if s = cp ".." then acc.dropLast
    else acc ++ [s]) []
  let core' := match segs.getLast? with
    | some s => if s = cp "." ∨ s = cp ".." then core ++ [[]] else core
    | none => core
  if core' = [] then [[]] else core'

/-- Parse the part after `scheme://` into authority, path, query, fragment. -/
def parseAfterScheme (sch rest : List Nat) : URLRec :=
  let ph := splitAtFirst 35 rest
  let ps := splitAtFirst 63 ph.1
  let auth := ps.1.takeWhile (fun c => c != 47)
  let pathPart := ps.1.drop auth.length
  let segs := match pathPart with
    | [] => [[]]
    | _ :: p => removeDotSegs (splitSep 47 p)
  ⟨sch, auth, segs, ps.2, ph.2⟩

/-- Parse an absolute hierarchical URL; `none` models the `URL` constructor
throwing. Modelled from the spec: §4.3 step 1 (platform URL parser). -/
def parseAbs (l : List Nat) : Option URLRec :=
  let sch := l.takeWhile isSchemeCP
  match sch with
  | [] => none
  | c0 :: _ =>
    if isLetterCP c0 then
      match l.drop sch.length with
      | 58 :: 47 :: 47 :: rest => some (parseAfterScheme sch rest)
      | _ => none
    else none

/-- Model of `new URL(url, refUrl)`: absolute URLs parse on their own,
otherwise the reference URL is required as a base for protocol-relative,
root-relative, query-only, fragment-only, empty and path-relative forms.
Modelled from the spec: §4.3 step 1 (platform URL parser; `none` is the
constructor throwing). -/
def resolveURL (url : List Nat) (refO : Option (List Nat)) : Option URLRec :=
  match parseAbs url with
  | some u => some u
  | none =>
    match refO with
    | none => none
    | some ref =>
      match parseAbs ref with
      | none => none
      | some b =>
        match url with
        | 47 :: 47 :: rest => some (parseAfterScheme b.scheme rest)
        | _ =>
          let ph := splitAtFirst 35 url
          let ps := splitAtFirst 63 ph.1
          match ps.1 with
          | [] =>
            if ps.2 ≠ [] then some { b with search := ps.2, hash := ph.2 }
            else if ph.2 ≠ [] then some { b with hash := ph.2 }
            else some { b with hash := [] }
          | 47 :: p =>
            some { b with segs := removeDotSegs (splitSep 47 p),
                          search := ps.2, hash := ph.2 }
          | _ :: _ =>
            some { b with
              segs := removeDotSegs (b.segs.dropLast ++ splitSep 47 ps.1),
              search := ps.2, hash := ph.2 }

/-! ## PathCodec (`viewer.inZipPathToUrl` and its inverse as `parseUrl`
decodes it) -/

/-- Fixed virtual base address (`browser.runtime.getURL("viewer/!/")`); its
origin is arbitrary but fixed for the whole session. -/
def virtualBase : List Nat := cp "ext://viewer/!/"

/-- Source `viewer.inZipPathToUrl` (view.js lines 52-54): percent-encode
each slash-separated segment and prefix the virtual base. -/
def inZipPathToUrl (inZipPath : List Nat) : List Nat :=
  virtualBase ++ joinSep 47 ((splitSep 47 inZipPath).map encodeURIComponentCP)

/-- The decoding applied by `viewer.parseUrl` (view.js lines 71-72) to a URL
under the virtual base: strip the base prefix, split on `/`, percent-decode
each segment, rejoin. -/
def fromVirtualUrl (url : List Nat) : List Nat :=
  joinSep 47 ((splitSep 47 (url.drop virtualBase.length)).map decodeURIComponentCP)

/-! ## Collaborator helpers from the shared scrapbook library -/

/-- Decimal digits of a number as codepoints (JS number-to-string). -/
def natToCP (n : Nat) : List Nat := (Nat.toDigits 10 n).map Char.toNat

/-- Modelled from the spec: `scrapbook.splitUrlByAnchor` splits a URL at
its first `#`; the second component keeps the `#`. -/
def splitUrlByAnchor (u : List Nat) : List Nat × List Nat := splitAtFirst 35 u

/-- Modelled from the spec: `scrapbook.splitUrl` splits a URL into main
part, query (with `?`) and fragment (with `#`), fragment first. -/
def splitUrl (u : List Nat) : List Nat × List Nat × List Nat :=
  let ph := splitAtFirst 35 u
  let ps := splitAtFirst 63 ph.1
  (ps.1, ps.2, ph.2)

/-- Result of `scrapbook.parseHeaderRefresh`: delay digits and target URL;
an empty component models a JS falsy (undefined) field. -/
structure MetaRefresh where
  time : List Nat
  url : List Nat
deriving Repr, DecidableEq

/-- Drop leading ASCII blanks. -/
def trimL (l : List Nat) : List Nat := l.dropWhile (fun c => c == 32 || c == 9)

/-- Drop trailing ASCII blanks. -/
def trimR (l : List Nat) : List Nat := (trimL l.reverse).reverse

/-- Modelled from the spec: `scrapbook.parseHeaderRefresh` parses a
`"<seconds>;url=<target>"` refresh header value into its delay and target. -/
def parseHeaderRefresh (content : List Nat) : MetaRefresh :=
  let t := trimL content
  let digits := t.takeWhile (fun c => 48 ≤ c && c ≤ 57)
  if digits = [] then ⟨[], []⟩
  else
    match trimL (t.drop digits.length) with
    | 59 :: r =>
      let r' := trimL r
      if prefixOfCP (cp "url") (lowerCP r') then
        match trimL (r'.drop 3) with
        | 61 :: r3 => ⟨digits, trimR (trimL r3)⟩
        | _ => ⟨digits, []⟩
      else ⟨digits, []⟩
    | _ => ⟨digits, []⟩

/-- Modelled from the spec: `scrapbook.escapeHtml` escapes the characters
significant in HTML text and attribute values. -/
def escapeHtml : List Nat → List Nat
  | [] => []
  | c :: rest =>
    (if c = 38 then cp "&amp;"
     else if c = 60 then cp "&lt;"
     else if c = 62 then cp "&gt;"
     else if c = 34 then cp "&quot;"
     else [c]) ++ escapeHtml rest

/-- Rewrite one srcset candidate: leading spaces, then the URL, then the
descriptor tail. -/
def rewriteSrcsetOne (rw : List Nat → List Nat) (cand : List Nat) : List Nat :=
  let sp := cand.takeWhile (fun c => c == 32)
  let rest := cand.drop sp.length
  let url := rest.takeWhile (fun c => c != 32)
  sp ++ rw url ++ rest.drop url.length

/-- Modelled from the spec: `scrapbook.rewriteSrcset` rewrites a `srcset`
candidate-by-candidate, preserving descriptors. -/
def rewriteSrcset (s : List Nat) (rw : List Nat → List Nat) : List Nat :=
  joinSep 44 ((splitSep 44 s).map (rewriteSrcsetOne rw))

/-! ## Stylesheet tokens, placeholder chunks, ComplexUrlFetcher state -/

/-- Tokenized stylesheet text: the view granted by the collaborator CSS
tokenizer behind `scrapbook.rewriteCssText`. Modelled from the spec: §6
requires a tokenizer that enumerates `@import` targets, `@font-face`
`url()`s and other `url()`s while preserving all remaining text. -/
inductive CssItem where
  | txt (s : List Nat)
  | importUrl (u : List Nat)
  | fontFaceUrl (u : List Nat)
  | bgUrl (u : List Nat)
deriving Repr, DecidableEq

/-- Rewritten stylesheet text: plain runs interleaved with placeholder
markers. -/
inductive Chunk where
  | txt (s : List Nat)
  | marker (key : Nat)
deriving Repr, DecidableEq

/-- Deterministic uuid for the n-th `scrapbook.getUuid` call of a fetcher
(the source draws random UUIDs; only freshness and format matter). -/
def uuidOfNat (n : Nat) : List Nat :=
  cp "00000000-0000-4000-8000-" ++
    (List.replicate (12 - (natToCP n).length) 48 ++ natToCP n)

/-- Placeholder text substituted into stylesheet text for key `n`. -/
def markerText (n : Nat) : List Nat := cp "urn:scrapbook:url:" ++ uuidOfNat n

/-- Serialize rewritten stylesheet chunks back to text. -/
def flattenChunks : List Chunk → List Nat
  | [] => []
  | Chunk.txt s :: rest => s ++ flattenChunks rest
  | Chunk.marker k :: rest => markerText k ++ flattenChunks rest

/-- The rewrite transform passed to `viewer.fetchFile`: none, the
stylesheet transform `viewer.processCssFile`, or the page transform used
by `viewer.fetchPage`. -/
inductive RW where
  | noRW
  | cssFileRW
  | docRW
deriving Repr, DecidableEq

/-- Nat-keyed first-match association lookup (JS object property access). -/
def lookupNat {α : Type} (m : List (Nat × α)) (k : Nat) : Option α :=
  match m with
  | [] => none
  | (k', v) :: rest => if k' = k then some v else lookupNat rest k

/-- One entry of `ComplexUrlFetcher.urlHash` (view.js lines 726-734). -/
structure UrlHashEntry where
  url : List Nat
  newUrl : Option (List Nat)
  rewriteKind : RW
deriving Repr, DecidableEq

/-- `ComplexUrlFetcher` state: the entry table in insertion order, the
recorded recursion chain, and the next fresh key. -/
structure Fetcher where
  urlHash : List (Nat × UrlHashEntry)
  recurseChain : List (List Nat)
  nextKey : Nat
deriving Repr, DecidableEq

/-- Platform `JSON.parse(JSON.stringify(chain))` on an array of strings: a
deep copy equal to the original (chains are persistent values here). -/
def jsonClone (c : List (List Nat)) : List (List Nat) := c

/-- Child chain built for meta-refresh recursion (view.js lines 274-275). -/
def metaRecurseChain (chain : List (List Nat)) (refUrl : List Nat) :
    List (List Nat) :=
  jsonClone chain ++ [refUrl]

/-- Child chain built for frame recursion (view.js lines 410-411). -/
def frameRecurseChain (chain : List (List Nat)) (refUrl : List Nat) :
    List (List Nat) :=
  jsonClone chain ++ [refUrl]

/-- Chain recorded by the `ComplexUrlFetcher` constructor (view.js lines
715-724): the deep-copied parent chain plus the anchor-stripped reference
URL when one is given (JS truthiness: the empty string adds nothing). -/
def fetcherChain (chain : List (List Nat)) (refUrl : List Nat) :
    List (List Nat) :=
  let base := jsonClone chain
  if refUrl = [] then base else base ++ [(splitUrlByAnchor refUrl).1]

/-- `ComplexUrlFetcher` constructor (view.js lines 715-724). -/
def mkFetcher (refUrl : List Nat) (chain : List (List Nat)) : Fetcher :=
  ⟨[], fetcherChain chain refUrl, 0⟩

/-- `ComplexUrlFetcher.getUrlHash` (view.js lines 726-734): record the URL
under a fresh key and hand back the placeholder marker. -/
def getUrlHash (f : Fetcher) (url : List Nat) (kind : RW) : Chunk × Fetcher :=
  (Chunk.marker f.nextKey,
    ⟨f.urlHash ++ [(f.nextKey, ⟨url, none, kind⟩)], f.recurseChain, f.nextKey + 1⟩)

/-- The scan pass of `viewer.processCssText` (view.js lines 697-707):
`scrapbook.rewriteCssText` with the three rewriter callbacks; import
targets are recorded with the nested stylesheet transform. -/
def scanCss : List CssItem → Fetcher → List Chunk × Fetcher
  | [], f => ([], f)
  | CssItem.txt s :: rest, f =>
    let r := scanCss rest f
    (Chunk.txt s :: r.1, r.2)
  | CssItem.importUrl u :: rest, f =>
    let m := getUrlHash f u RW.cssFileRW
    let r := scanCss rest m.2
    (m.1 :: r.1, r.2)
  | CssItem.fontFaceUrl u :: rest, f =>
    let m := getUrlHash f u RW.noRW
    let r := scanCss rest m.2
    (m.1 :: r.1, r.2)
  | CssItem.bgUrl u :: rest, f =>
    let m := getUrlHash f u RW.noRW
    let r := scanCss rest m.2
    (m.1 :: r.1, r.2)

/-- `ComplexUrlFetcher.finalRewrite` (view.js lines 762-770) on chunks: a
marker whose key is recorded is replaced by the entry's `newUrl`, where JS
string coercion turns a still-null `newUrl` into the text "null"; a marker
with no recorded key is left verbatim. -/
def finalRewriteChunks (chunks : List Chunk) (table : List (Nat × UrlHashEntry)) :
    List Chunk :=
  chunks.map (fun c =>
    match c with
    | Chunk.txt s => Chunk.txt s
    | Chunk.marker k =>
      match lookupNat table k with
      | some e =>
        Chunk.txt (match e.newUrl with
          | some u => u
          | none => cp "null")
      | none => Chunk.marker k)

mutual

/-- Simple `url(...)` scanner standing for the collaborator tokenizer when
an inline `style` attribute value must be tokenized; text-run mode.
Modelled from the spec (§6 CSS tokenizer); a simplification adequate for
the properties proved here, which do not depend on its precision. -/
def tokCssT : List Nat → List Nat → List CssItem
  | acc, [] => if acc = [] then [] else [CssItem.txt acc.reverse]
  | acc, 117 :: 114 :: 108 :: 40 :: rest =>
    CssItem.txt (acc.reverse ++ cp "url(") :: tokCssU [] rest
  | acc, c :: rest => tokCssT (c :: acc) rest
termination_by structural _ l => l

/-- The `url(...)` scanner inside a `url(` argument. -/
def tokCssU : List Nat → List Nat → List CssItem
  | acc, [] => [CssItem.bgUrl acc.reverse]
  | acc, 41 :: rest => CssItem.bgUrl acc.reverse :: CssItem.txt (cp ")") :: tokCssT [] rest
  | acc, c :: rest => tokCssU (c :: acc) rest
termination_by structural _ l => l

end

/-- Tokenize an inline stylesheet string. -/
def tokenizeCss (s : List Nat) : List CssItem := tokCssT [] s

/-! ## Document tree, blobs, resource store, viewer state -/

/-- Element of the parsed document tree; `ctext` carries the tokenized
stylesheet text of `style` elements. -/
inductive Elem where
  | mk (tag : List Nat) (attrs : List (List Nat × List Nat)) (ctext : List CssItem)
      (children : List Elem)

/-- Tag name of an element. -/
def Elem.tag : Elem → List Nat
  | .mk t _ _ _ => t

/-- Attribute list of an element. -/
def Elem.attrs : Elem → List (List Nat × List Nat)
  | .mk _ a _ _ => a

/-- Tokenized stylesheet content of an element. -/
def Elem.ctext : Elem → List CssItem
  | .mk _ _ x _ => x

/-- Child elements. -/
def Elem.children : Elem → List Elem
  | .mk _ _ _ c => c

/-- Replace an attribute's value, keeping position, or append it. -/
def setAttrL : List (List Nat × List Nat) → List Nat → List Nat →
    List (List Nat × List Nat)
  | [], n, v => [(n, v)]
  | (k, w) :: rest, n, v =>
    if k = n then (n, v) :: rest else (k, w) :: setAttrL rest n v

/-- JS `getAttribute` (null becomes `none`). -/
def Elem.getA (e : Elem) (n : List Nat) : Option (List Nat) := lookupAssoc e.attrs n

/-- JS `setAttribute`. -/
def Elem.setA (e : Elem) (n v : List Nat) : Elem :=
  Elem.mk e.tag (setAttrL e.attrs n v) e.ctext e.children

/-- JS `hasAttribute`. -/
def Elem.hasA (e : Elem) (n : List Nat) : Bool := (e.getA n).isSome

/-- Replace the tokenized stylesheet content. -/
def Elem.setText (e : Elem) (x : List CssItem) : Elem :=
  Elem.mk e.tag e.attrs x e.children

/-- Content of a blob: raw bytes, tokenized stylesheet text, or a
serialized document (doctype plus root element). -/
inductive BCont where
  | bytes (data : List Nat)
  | cssToks (items : List CssItem)
  | doc (doctype : List Nat) (root : Elem)

/-- JS `Blob`: a MIME type and content. -/
structure Blob where
  btype : List Nat
  content : BCont

/-- One entry of `viewer.inZipFiles`: the cached file blob and its
object URL issued at store population (view.js lines 911-920). -/
structure FileEntry where
  file : Blob
  url : List Nat

/-- A parsed document (`scrapbook.readFileAsDocument` result). -/
structure Doc where
  ctype : List Nat
  doctype : List Nat
  root : Elem

/-- The viewer's mutable state: the resource store `inZipFiles`, the
locator-to-path map `blobUrlToInZipPath`, the set `rewrittenBlobUrl`, the
platform blob registry, and the fresh-locator counter. -/
structure VState where
  inZipFiles : List (List Nat × FileEntry)
  blobUrlToInZipPath : List (List Nat × List Nat)
  rewrittenBlobUrl : List (List Nat)
  blobStore : List (List Nat × Blob)
  nextBlobId : Nat

/-- Platform `URL.createObjectURL`: issue a fresh `blob:` locator and
register the blob; freshness is modelled by a counter. -/
def createObjectURL (st : VState) (b : Blob) : List Nat × VState :=
  let u := cp "blob:" ++ natToCP st.nextBlobId
  (u, ⟨st.inZipFiles, st.blobUrlToInZipPath, st.rewrittenBlobUrl,
    (u, b) :: st.blobStore, st.nextBlobId + 1⟩)

/-- `scrapbook.readFileAsDocument`: parse a blob as a document. Modelled
from the spec: §6 `parse(bytes, mimeType) -> documentTree | throws`; a
`none` result models the parse failure the source catches. -/
def readFileAsDocument (b : Blob) : Option Doc :=
  match b.content with
  | BCont.doc dt root => some ⟨b.btype, dt, root⟩
  | _ => none

/-- Tokenized stylesheet view of a blob's text (the collaborator CSS
parser applied to blob content; non-stylesheet bytes hold no `url()`
references). Modelled from the spec (§6 CSS tokenizer). -/
def cssToksOf (b : Blob) : List CssItem :=
  match b.content with
  | BCont.cssToks items => items
  | _ => []

/-! ## UrlResolver (`viewer.parseUrl`, view.js lines 56-93) -/

/-- Result of `viewer.parseUrl`; fields that the source leaves undefined
are `none` / `[]`. -/
structure ParseInfo where
  url : List Nat
  inZip : Bool
  virtualUrl : Option (List Nat)
  inZipPath : Option (List Nat)
  mime : Option (List Nat)
  search : List Nat
  hash : List Nat
deriving Repr, DecidableEq

/-- Source `viewer.parseUrl` (view.js lines 56-93): resolve against the
reference URL (parse failure returns the input unresolved); a resolved URL
under the virtual base is stripped, decoded and looked up in the store —
found entries yield the entry's object URL plus the fragment (a blob URL
with a search string being invalid), missing entries degrade to the
original input; anything else passes through as the absolute URL. -/
def parseUrl (files : List (List Nat × FileEntry)) (url : List Nat)
    (refUrl : Option (List Nat)) : ParseInfo :=
  match resolveURL url refUrl with
  | none => ⟨url, false, none, none, none, [], []⟩
  | some abs =>
    if prefixOfCP virtualBase (urlHref abs) then
      let search := abs.search
      let hash := abs.hash
      let abs' : URLRec := ⟨abs.scheme, abs.auth, abs.segs, [], []⟩
      let inZipPath := fromVirtualUrl (urlHref abs')
      match lookupAssoc files inZipPath with
      | some f =>
        ⟨f.url ++ hash, true, some (urlHref abs' ++ hash), some inZipPath,
          some f.file.btype, search, hash⟩
      | none => ⟨url, false, none, none, none, [], []⟩
    else ⟨urlHref abs, false, none, none, none, [], []⟩

/-! ## DocumentRewriter per-node rules (`rewriteNode`, view.js lines 211-657) -/

/-- Source `viewer.hasCsp`: never assigned anywhere in view.js, hence
undefined and falsy; the CSP shim branches are therefore inert here. -/
def hasCsp : Bool := false

/-- Deferred rewrite tasks recorded during traversal (the source's `tasks`
array); each sets one attribute or text of its own node when it resolves. -/
inductive TaskAct where
  | metaPage (time : List Nat) (pathO : Option (List Nat)) (url : List Nat)
      (chain : List (List Nat))
  | framePage (pathO : Option (List Nat)) (url : List Nat) (chain : List (List Nat))
  | linkCss (pathO : Option (List Nat)) (url : List Nat) (chain : List (List Nat))
  | styleElem (items : List CssItem) (refUrl : List Nat) (chain : List (List Nat))
  | styleAttr (items : List CssItem) (refUrl : List Nat) (chain : List (List Nat))

/-- The `rewriteUrl` helper of `parseDocument` (view.js lines 180-182). -/
def rewriteUrl (files : List (List Nat × FileEntry)) (refUrl url : List Nat) :
    List Nat :=
  (parseUrl files url (some refUrl)).url

/-- The self-link rule shared by SVG/MathML `href`/`xlink:href` and
`a`/`area` `href` (view.js lines 214-227, 228-241, 243-256, 438-451): an
in-archive target with a different path becomes the resolved locator, the
document's own path collapses to its fragment (or `#`), anything else gets
the plain resolved URL. -/
def selfLink (files : List (List Nat × FileEntry)) (refUrl inZipPath href : List Nat) :
    List Nat :=
  let info := parseUrl files href (some refUrl)
  if info.inZip then
    if info.inZipPath ≠ some inZipPath then info.url
    else if info.hash ≠ [] then info.hash
    else cp "#"
  else info.url

/-- Session constant marking synthesized redirect-notice pages
(`viewer.metaRefreshIdentifier`, view.js line 18). -/
def metaRefreshIdentifier : List Nat := cp "data-scrapbook-meta-refresh-20240101000000000"

/-- The synthesized inert redirect-notice page for an external meta-refresh
target (view.js lines 287-297). -/
def redirectPageHtml (url : List Nat) : List Nat :=
  cp "<!DOCTYPE html>\n<html " ++ metaRefreshIdentifier ++
  cp "=\"1\">\n<head>\n<meta charset=\"UTF-8\">\n<meta name=\"viewport\" content=\"width=device-width,initial-scale=1\">\n</head>\n<body>\nRedirecting to: <a href=\"" ++
  escapeHtml url ++ cp "\">" ++ escapeHtml url ++
  cp "</a>\n</body>\n</html>\n"

/-- The `meta[http-equiv=refresh]` content rule (view.js lines 259-304):
returns the synchronously written content value, the deferred task for the
in-archive cross-page case, and the state (a redirect-notice blob is
created for external targets). -/
def metaRefreshCase (st : VState) (chain : List (List Nat)) (refUrl content : List Nat) :
    List Nat × List TaskAct × VState :=
  let mr := parseHeaderRefresh content
  if mr.url = [] then (content, [], st)
  else
    let info := parseUrl st.inZipFiles mr.url (some refUrl)
    let sourcePage := (splitUrlByAnchor refUrl).1
    let target := match info.virtualUrl with
      | some v => v
      | none => info.url
    let tp := (splitUrlByAnchor target).1
    let tph := (splitUrlByAnchor target).2
    if tp ≠ sourcePage then
      if chain.contains tp then
        (mr.time ++ cp ";url=about:blank", [], st)
      else if info.inZip then
        (content,
          [TaskAct.metaPage mr.time info.inZipPath info.url
            (metaRecurseChain chain refUrl)], st)
      else
        let r := createObjectURL st ⟨cp "text/html", BCont.bytes (redirectPageHtml info.url)⟩
        (mr.time ++ cp ";url=" ++ r.1 ++ tph, [], r.2)
    else
      (mr.time ++ (if tph ≠ [] then cp ";url=" ++ tph else []), [], st)

/-- The `frame`/`iframe` `src` rule (view.js lines 407-434): the chain is
extended with the parent document's URL; an in-archive target already in
that chain is neutralized to `about:blank` with no fetch, everything else
defers a page fetch. -/
def frameSrcCase (files : List (List Nat × FileEntry)) (chain : List (List Nat))
    (refUrl src : List Nat) : List Nat × List TaskAct :=
  let frChain := frameRecurseChain chain refUrl
  let info := parseUrl files src (some refUrl)
  if info.inZip ∧ frChain.contains (inZipPathToUrl (info.inZipPath.getD [])) then
    (cp "about:blank", [])
  else
    (src, [TaskAct.framePage info.inZipPath info.url frChain])

/-- The lowercased `og:` properties whose `content` is rewritten
(view.js lines 306-319). -/
def ogProps : List (List Nat) :=
  [cp "og:image", cp "og:image:url", cp "og:image:secure_url",
   cp "og:audio", cp "og:audio:url", cp "og:audio:secure_url",
   cp "og:video", cp "og:video:url", cp "og:video:secure_url",
   cp "og:url"]

/-- The `link[rel~="stylesheet"]` test (`elem.matches`, view.js line 326);
`rel` values match ASCII case-insensitively, `~=` splits on blanks. -/
def relHasStylesheet (relO : Option (List Nat)) : Bool :=
  match relO with
  | none => false
  | some r => (splitSep 32 (lowerCP r)).contains (cp "stylesheet")

/-- Rewrite an attribute in place when present. -/
def rewriteAttrIf (files : List (List Nat × FileEntry)) (refUrl : List Nat)
    (e : Elem) (n : List Nat) : Elem :=
  match e.getA n with
  | some v => e.setA n (rewriteUrl files refUrl v)
  | none => e

/-- Source `rewriteNode` (view.js lines 211-657): the per-element rewrite
dispatch. Returns the synchronously rewritten element, the deferred tasks
it spawned, and the threaded state. `hasCsp` is false, so the xhr-based
CSP shims for script/embed/object/applet spawn nothing, and a script whose
rewritten `src` is a blob URL is neutralized to `"blob:"`. -/
def scanNode (st : VState) (refUrl inZipPath : List Nat) (chain : List (List Nat))
    (rootName : List Nat) (elem : Elem) : Elem × List TaskAct × VState :=
  if rootName = cp "svg" then
    let e1 := match elem.getA (cp "href") with
      | some h => elem.setA (cp "href") (selfLink st.inZipFiles refUrl inZipPath h)
      | none => elem
    let e2 := match e1.getA (cp "xlink:href") with
      | some h => e1.setA (cp "xlink:href") (selfLink st.inZipFiles refUrl inZipPath h)
      | none => e1
    (e2, [], st)
  else if rootName = cp "math" then
    (match elem.getA (cp "href") with
      | some h => elem.setA (cp "href") (selfLink st.inZipFiles refUrl inZipPath h)
      | none => elem, [], st)
  else
    let tag := lowerCP elem.tag
    let r :=
      if tag = cp "meta" then
        let isRefresh : Bool :=
          match elem.getA (cp "http-equiv"), elem.getA (cp "content") with
          | some he, some _ => lowerCP he == cp "refresh"
          | _, _ => false
        if isRefresh then
          let m := metaRefreshCase st chain refUrl ((elem.getA (cp "content")).getD [])
          (elem.setA (cp "content") m.1, m.2.1, m.2.2)
        else
          match elem.getA (cp "property"), elem.getA (cp "content") with
          | some pr, some c =>
            if ogProps.contains (lowerCP pr) then
              (elem.setA (cp "content") (rewriteUrl st.inZipFiles refUrl c), [], st)
            else (elem, [], st)
          | _, _ => (elem, [], st)
      else if tag = cp "link" then
        match elem.getA (cp "href") with
        | some h =>
          if relHasStylesheet (elem.getA (cp "rel")) then
            let info := parseUrl st.inZipFiles h (some refUrl)
            (elem, [TaskAct.linkCss info.inZipPath info.url [refUrl]], st)
          else
            (elem.setA (cp "href") (rewriteUrl st.inZipFiles refUrl h), [], st)
        | none => (elem, [], st)
      else if tag = cp "style" then
        (elem, [TaskAct.styleElem elem.ctext refUrl chain], st)
      else if tag = cp "script" then
        match elem.getA (cp "src") with
        | some s =>
          let e1 := elem.setA (cp "src") (rewriteUrl st.inZipFiles refUrl s)
          let newSrc := (e1.getA (cp "src")).getD []
          if prefixOfCP (cp "blob:") newSrc ∧ hasCsp = false then
            (e1.setA (cp "src") (cp "blob:"), [], st)
          else (e1, [], st)
        | none => (elem, [], st)
      else if tag = cp "body" ∨ tag = cp "table" ∨ tag = cp "tr" ∨
          tag = cp "th" ∨ tag = cp "td" then
        (rewriteAttrIf st.inZipFiles refUrl elem (cp "background"), [], st)
      else if tag = cp "frame" ∨ tag = cp "iframe" then
        match elem.getA (cp "src") with
        | some s =>
          let f := frameSrcCase st.inZipFiles chain refUrl s
          (elem.setA (cp "src") f.1, f.2, st)
        | none => (elem, [], st)
      else if tag = cp "a" ∨ tag = cp "area" then
        match elem.getA (cp "href") with
        | some h =>
          (elem.setA (cp "href") (selfLink st.inZipFiles refUrl inZipPath h), [], st)
        | none => (elem, [], st)
      else if tag = cp "img" then
        let e1 := rewriteAttrIf st.inZipFiles refUrl elem (cp "src")
        let e2 := match e1.getA (cp "srcset") with
          | some v =>
            e1.setA (cp "srcset")
              (rewriteSrcset v (fun u => rewriteUrl st.inZipFiles refUrl u))
          | none => e1
        (e2, [], st)
      else if tag = cp "audio" then
        (rewriteAttrIf st.inZipFiles refUrl elem (cp "src"), [], st)
      else if tag = cp "video" then
        let e1 := rewriteAttrIf st.inZipFiles refUrl elem (cp "src")
        (rewriteAttrIf st.inZipFiles refUrl e1 (cp "poster"), [], st)
      else if tag = cp "source" then
        let e1 := rewriteAttrIf st.inZipFiles refUrl elem (cp "src")
        let e2 := match e1.getA (cp "srcset") with
          | some v =>
            e1.setA (cp "srcset")
              (rewriteSrcset v (fun u => rewriteUrl st.inZipFiles refUrl u))
          | none => e1
        (e2, [], st)
      else if tag = cp "track" then
        (rewriteAttrIf st.inZipFiles refUrl elem (cp "src"), [], st)
      else if tag = cp "embed" then
        (rewriteAttrIf st.inZipFiles refUrl elem (cp "src"), [], st)
      else if tag = cp "object" then
        (rewriteAttrIf st.inZipFiles refUrl elem (cp "data"), [], st)
      else if tag = cp "applet" then
        let e1 := rewriteAttrIf st.inZipFiles refUrl elem (cp "code")
        (rewriteAttrIf st.inZipFiles refUrl e1 (cp "archive"), [], st)
      else if tag = cp "form" then
        (rewriteAttrIf st.inZipFiles refUrl elem (cp "action"), [], st)
      else if tag = cp "input" then
        if lowerCP ((elem.getA (cp "type")).getD (cp "text")) = cp "image" then
          (rewriteAttrIf st.inZipFiles refUrl elem (cp "src"), [], st)
        else (elem, [], st)
      else (elem, [], st)
    match r.1.getA (cp "style") with
    | some sv =>
      (r.1, r.2.1 ++ [TaskAct.styleAttr (tokenizeCss sv) refUrl chain], r.2.2)
    | none => r

mutual

/-- Source `rewriteRecursively` (view.js lines 185-209, 664-666): pre-order
traversal switching `rootName` at `svg`/`math` boundaries; the modelled
node cases never remove an element, so children are always visited. Fuel
bounds the traversal size; `addr` is the child-index path of `elem`. -/
def scanTree : Nat → VState → List Nat → List Nat → List (List Nat) → List Nat →
    List Nat → Elem → Elem × List (List Nat × TaskAct) × VState
  | 0, st, _, _, _, _, _, e => (e, [], st)
  | fuel + 1, st, refUrl, inZipPath, chain, rootName, addr, elem =>
    let nodeName := lowerCP elem.tag
    let rootName' := if nodeName = cp "svg" ∨ nodeName = cp "math" then nodeName
      else rootName
    let r := scanNode st refUrl inZipPath chain rootName' elem
    let c := scanChildren fuel r.2.2 refUrl inZipPath chain rootName' addr 0
      r.1.children
    (Elem.mk r.1.tag r.1.attrs r.1.ctext c.1,
      r.2.1.map (fun a => (addr, a)) ++ c.2.1, c.2.2)
termination_by structural fuel => fuel

/-- Traversal over a child list, numbering addresses left to right. -/
def scanChildren : Nat → VState → List Nat → List Nat → List (List Nat) → List Nat →
    List Nat → Nat → List Elem → List Elem × List (List Nat × TaskAct) × VState
  | 0, st, _, _, _, _, _, _, cs => (cs, [], st)
  | _ + 1, st, _, _, _, _, _, _, [] => ([], [], st)
  | fuel + 1, st, refUrl, inZipPath, chain, rootName, addr, i, c :: rest =>
    let r := scanTree fuel st refUrl inZipPath chain rootName (addr ++ [i]) c
    let rr := scanChildren fuel r.2.2 refUrl inZipPath chain rootName addr (i + 1) rest
    (r.1 :: rr.1, r.2.1 ++ rr.2.1, rr.2.2)
termination_by structural fuel => fuel

end

/-- Apply an update to the element at a child-index path (the promise
callbacks of the source hold their node directly; the model addresses it
by position). -/
def setAtAddr : Elem → List Nat → (Elem → Elem) → Elem
  | e, [], f => f e
  | e, i :: addr, f =>
    Elem.mk e.tag e.attrs e.ctext
      (e.children.take i ++
        (match e.children.drop i with
         | [] => []
         | c :: rest => setAtAddr c addr f :: rest))
termination_by structural _ addr _ => addr

mutual

/-- Insert a new first child into the first `head` element in tree order
(`doc.querySelector("head")` plus `insertBefore`, view.js lines 673-677);
`none` models the thrown TypeError when no head exists. -/
def insertAtHeadF : Nat → Elem → Elem → Option Elem
  | 0, _, _ => none
  | fuel + 1, e, n =>
    if lowerCP e.tag = cp "head" then
      some (Elem.mk e.tag e.attrs e.ctext (n :: e.children))
    else
      match insertAtHeadListF fuel e.children n with
      | some cs => some (Elem.mk e.tag e.attrs e.ctext cs)
      | none => none
termination_by structural fuel => fuel

/-- Head search across a child list, leftmost first. -/
def insertAtHeadListF : Nat → List Elem → Elem → Option (List Elem)
  | 0, _, _ => none
  | _ + 1, [], _ => none
  | fuel + 1, e :: rest, n =>
    match insertAtHeadF fuel e n with
    | some e' => some (e' :: rest)
    | none =>
      match insertAtHeadListF fuel rest n with
      | some rest' => some (e :: rest')
      | none => none
termination_by structural fuel => fuel

end

/-- URL of the reset stylesheet (`browser.runtime.getURL("core/reset.css")`). -/
def resetCssUrl : List Nat := cp "ext://viewer/core/reset.css"

/-- The reset stylesheet link inserted as the first head child of every
rewritten HTML/XHTML document (view.js lines 672-677). -/
def resetCssLink : Elem :=
  Elem.mk (cp "link") [(cp "rel", cp "stylesheet"), (cp "href", resetCssUrl)] [] []

/-! ## The recursive engine: fetchFile / fetchPage / parseDocument /
processCssText / startFetches, fuel-bounded -/

mutual

/-- Source `viewer.processCssText` (view.js lines 694-711): build a
fetcher, run the scan pass, start the fetches, substitute the final
values. Fuel is decremented at every recursive suspension point;
exhausted fuel substitutes the table as it stands. -/
def processCssTextF : Nat → VState → List CssItem → List Nat → List (List Nat) →
    List Nat × VState
  | fuel, st, cssText, refUrl, recurseChain =>
    let fetcher := mkFetcher refUrl recurseChain
    let s := scanCss cssText fetcher
    match fuel with
    | 0 => (flattenChunks (finalRewriteChunks s.1 s.2.urlHash), st)
    | fuel + 1 =>
      let r := startFetchesF fuel st s.2.urlHash s.2.recurseChain
      (flattenChunks (finalRewriteChunks s.1 r.1), r.2)
termination_by structural fuel => fuel

/-- Source `ComplexUrlFetcher.startFetches` (view.js lines 736-760), entry
by entry: resolve against the last chain element; for an in-archive target
whose anchor-stripped virtual URL is already in the chain the task returns
`"about:blank"` without assigning `newUrl`, so the entry keeps its null
`newUrl`; otherwise the target is fetched with the entry's transform and
`newUrl` becomes the returned locator, or the resolved URL when the fetch
yields nothing. -/
def startFetchesF : Nat → VState → List (Nat × UrlHashEntry) → List (List Nat) →
    List (Nat × UrlHashEntry) × VState
  | _, st, [], _ => ([], st)
  | 0, st, table, _ => (table, st)
  | fuel + 1, st, (k, e) :: rest, chain =>
    let sourceUrl := chain.getLast?
    let info := parseUrl st.inZipFiles e.url sourceUrl
    if info.inZip ∧
        chain.contains (splitUrlByAnchor (inZipPathToUrl (info.inZipPath.getD []))).1 then
      let r := startFetchesF fuel st rest chain
      ((k, e) :: r.1, r.2)
    else
      let f := fetchFileF fuel st info.inZipPath e.rewriteKind chain
      let newUrl := match f.1 with
        | some u => u
        | none => info.url
      let r := startFetchesF fuel f.2 rest chain
      ((k, ⟨e.url, some newUrl, e.rewriteKind⟩) :: r.1, r.2)
termination_by structural fuel => fuel

/-- Source `viewer.fetchFile` (view.js lines 111-131): look the path up in
the store (`none` covers both a missing path and the JS `undefined` path
of an unresolved reference); without a transform the entry's own object
URL is returned unchanged; with a transform the transformed blob gets a
fresh object URL recorded in `blobUrlToInZipPath` and `rewrittenBlobUrl`.
The document transform is the rewrite callback of `viewer.fetchPage`
(lines 150-166), whose parse failures and non-document types fall back to
the raw blob; the stylesheet transform is `viewer.processCssFile` (lines
686-692) through `scrapbook.rewriteCssFile`. Exhausted fuel also falls
back to the raw blob. -/
def fetchFileF : Nat → VState → Option (List Nat) → RW → List (List Nat) →
    Option (List Nat) × VState
  | fuel, st, pathO, kind, chain =>
    match pathO with
    | none => (none, st)
    | some p =>
      match lookupAssoc st.inZipFiles p with
      | none => (none, st)
      | some f =>
        match kind with
        | RW.noRW => (some f.url, st)
        | RW.cssFileRW =>
          let rw : Blob × VState :=
            match fuel with
            | 0 => (f.file, st)
            | fuel + 1 =>
              let r := processCssTextF fuel st (cssToksOf f.file) (inZipPathToUrl p)
                chain
              (⟨cp "text/css", BCont.bytes r.1⟩, r.2)
          let u := createObjectURL rw.2 rw.1
          (some u.1,
            ⟨u.2.inZipFiles, (u.1, p) :: u.2.blobUrlToInZipPath,
             u.1 :: u.2.rewrittenBlobUrl, u.2.blobStore, u.2.nextBlobId⟩)
        | RW.docRW =>
          let rw : Blob × VState :=
            match fuel with
            | 0 => (f.file, st)
            | fuel + 1 =>
              if f.file.btype = cp "text/html" ∨
                  f.file.btype = cp "application/xhtml+xml" ∨
                  f.file.btype = cp "image/svg+xml" then
                match readFileAsDocument f.file with
                | some d =>
                  match parseDocumentF fuel st d p chain with
                  | (some b, st') => (b, st')
                  | (none, st') => (f.file, st')
                | none => (f.file, st)
              else (f.file, st)
          let u := createObjectURL rw.2 rw.1
          (some u.1,
            ⟨u.2.inZipFiles, (u.1, p) :: u.2.blobUrlToInZipPath,
             u.1 :: u.2.rewrittenBlobUrl, u.2.blobStore, u.2.nextBlobId⟩)
termination_by structural fuel => fuel

/-- Source `viewer.fetchPage` (view.js lines 140-170): fetch the path with
the page rewrite transform and append only the fragment of the requested
URL (a blob URL with a search string being invalid). -/
def fetchPageF : Nat → VState → Option (List Nat) → List Nat → List (List Nat) →
    Option (List Nat) × VState
  | fuel, st, pathO, url, chain =>
    let searchAndHash := if url = [] then [] else (splitUrl url).2.2
    match fuel with
    | 0 => (none, st)
    | fuel + 1 =>
      let r := fetchFileF fuel st pathO RW.docRW chain
      (r.1.map (fun u => u ++ searchAndHash), r.2)
termination_by structural fuel => fuel

/-- Source `viewer.parseDocument` (view.js lines 179-684): rewrite the
tree, join on the recorded tasks, insert the reset stylesheet for
HTML/XHTML documents (`hasCsp` is false, so no privileged-API-removal
script is inserted), and keep the original doctype and content type.
`none` models the exception thrown when no head element exists, which the
caller catches by returning the original blob. -/
def parseDocumentF : Nat → VState → Doc → List Nat → List (List Nat) →
    Option Blob × VState
  | 0, st, _, _, _ => (none, st)
  | fuel + 1, st, doc, inZipPath, recurseChain =>
    let refUrl := inZipPathToUrl inZipPath
    let s := scanTree fuel st refUrl inZipPath recurseChain (lowerCP doc.root.tag) []
      doc.root
    let rt := runTasksF fuel s.2.2 s.1 s.2.1
    if doc.ctype = cp "text/html" ∨ doc.ctype = cp "application/xhtml+xml" then
      match insertAtHeadF fuel rt.1 resetCssLink with
      | some root' => (some ⟨doc.ctype, BCont.doc doc.doctype root'⟩, rt.2)
      | none => (none, rt.2)
    else (some ⟨doc.ctype, BCont.doc doc.doctype rt.1⟩, rt.2)
termination_by structural fuel => fuel

/-- Join on the task list (`await Promise.all(tasks)`, view.js line 680):
each task computes its value and assigns it to its own node; tasks own
disjoint node slots, so this sequential order assigns the same final tree
the concurrently completing source tasks do. -/
def runTasksF : Nat → VState → Elem → List (List Nat × TaskAct) → Elem × VState
  | _, st, root, [] => (root, st)
  | 0, st, root, _ => (root, st)
  | fuel + 1, st, root, (addr, act) :: rest =>
    match act with
    | TaskAct.metaPage time pathO url chain =>
      let r := fetchPageF fuel st pathO url chain
      let u := match r.1 with
        | some u => u
        | none => url
      runTasksF fuel r.2
        (setAtAddr root addr (fun e => e.setA (cp "content") (time ++ cp ";url=" ++ u)))
        rest
    | TaskAct.framePage pathO url chain =>
      let r := fetchPageF fuel st pathO url chain
      let u := match r.1 with
        | some u => u
        | none => url
      runTasksF fuel r.2 (setAtAddr root addr (fun e => e.setA (cp "src") u)) rest
    | TaskAct.linkCss pathO url chain =>
      let r := fetchFileF fuel st pathO RW.cssFileRW chain
      let u := match r.1 with
        | some u => u
        | none => url
      runTasksF fuel r.2 (setAtAddr root addr (fun e => e.setA (cp "href") u)) rest
    | TaskAct.styleElem items refUrl chain =>
      let r := processCssTextF fuel st items refUrl chain
      runTasksF fuel r.2 (setAtAddr root addr (fun e => e.setText [CssItem.txt r.1]))
        rest
    | TaskAct.styleAttr items refUrl chain =>
      let r := processCssTextF fuel st items refUrl chain
      runTasksF fuel r.2 (setAtAddr root addr (fun e => e.setA (cp "style") r.1)) rest
termination_by structural fuel => fuel

end

/-! ## Concrete archives used to evaluate the model -/

/-- A stylesheet archive entry whose single import resolves back to the
stylesheet itself. -/
def cssSelfEntry : FileEntry :=
  ⟨⟨cp "text/css", BCont.cssToks [CssItem.importUrl (cp "self.css")]⟩, cp "blob:css0"⟩

/-- Store holding only the self-importing stylesheet. -/
def cssSelfStore : VState :=
  ⟨[(cp "self.css", cssSelfEntry)], [], [], [], 0⟩

/-- A one-page archive entry used for self-link scenarios. -/
def selfDocEntry : FileEntry := ⟨⟨cp "text/html", BCont.bytes []⟩, cp "blob:m0"⟩

/-- Store holding only `m.html`. -/
def selfDocStore : VState := ⟨[(cp "m.html", selfDocEntry)], [], [], [], 0⟩

/-- A MathML element carrying only `xlink:href` back to its own page. -/
def mathXlinkElem : Elem := Elem.mk (cp "mi") [(cp "xlink:href", cp "m.html#x")] [] []

/-- An iframe pointing at `target`. -/
def frameElem (target : String) : Elem :=
  Elem.mk (cp "iframe") [(cp "src", cp target)] [] []

/-- A minimal html document: head, then a body holding one element. -/
def htmlDoc (inner : Elem) : Elem :=
  Elem.mk (cp "html") [] []
    [Elem.mk (cp "head") [] [] [], Elem.mk (cp "body") [] [] [inner]]

/-- Archive entry for page A, framing B. -/
def entryA : FileEntry :=
  ⟨⟨cp "text/html", BCont.doc (cp "<!DOCTYPE html>") (htmlDoc (frameElem "B.html"))⟩,
   cp "blob:a0"⟩

/-- Archive entry for page B, framing A back. -/
def entryB : FileEntry :=
  ⟨⟨cp "text/html", BCont.doc (cp "<!DOCTYPE html>") (htmlDoc (frameElem "A.html"))⟩,
   cp "blob:b0"⟩

/-- Store with the two mutually framing pages. -/
def cycleStore : VState :=
  ⟨[(cp "A.html", entryA), (cp "B.html", entryB)], [], [], [], 0⟩

/-- Child element at an index (for inspecting rewritten trees). -/
def childAt (e : Elem) (i : Nat) : Elem := e.children.getD i (Elem.mk [] [] [] [])

/-- Root element of a document blob. -/
def blobRoot (b : Blob) : Elem :=
  match b.content with
  | BCont.doc _ r => r
  | _ => Elem.mk [] [] [] []

/-! ## Round-trip lemmas for the codec -/

theorem utf8Bytes_lt_256 (n : Nat) (hv : n < 1114112) :
    ∀ b ∈ utf8Bytes n, b < 256 := by
  intro b hb
  unfold utf8Bytes at hb
  split at hb
  · simp at hb; omega
  · split at hb
    · simp at hb
      rcases hb with h | h <;> omega
    · split at hb
      · simp at hb
        rcases hb with h | h | h <;> omega
      · simp at hb
        have : n / 262144 ≤ 4 := by omega
        rcases hb with h | h | h | h <;> omega

theorem hexVal_hexU (x : Nat) (h : x < 16) : hexVal (hexU x) = x := by
  unfold hexU hexVal
  by_cases h10 : x < 10
  · rw [if_pos h10, if_pos (by omega)]
    omega
  · rw [if_neg h10, if_neg (by omega), if_pos (by omega)]
    omega

theorem isHexCP_hexU (x : Nat) (h : x < 16) : isHexCP (hexU x) = true := by
  unfold isHexCP hexU
  split <;> simp <;> omega

theorem u8go_utf8Bytes (n : Nat) (hv : n < 1114112) (l : List Nat) :
    u8go (utf8Bytes n ++ l) = n :: u8go l := by
  unfold utf8Bytes
  split
  next h1 =>
    simp only [List.cons_append, List.nil_append, List.append_eq, u8go]
    rw [if_pos h1]
  next h1 =>
    split
    next h2 =>
      simp only [List.cons_append, List.nil_append, List.append_eq,
        List.singleton_append, u8go, u8c1]
      rw [if_neg (by omega), if_pos (by omega : 194 ≤ 192 + n / 64 ∧ 192 + n / 64 ≤ 223),
        if_pos (by omega : 128 ≤ 128 + n % 64 ∧ 128 + n % 64 ≤ 191)]
      exact congrArg (fun x => x :: u8go l) (by omega)
    next h2 =>
      split
      next h3 =>
        simp only [List.cons_append, List.nil_append, List.append_eq,
          List.singleton_append, u8go, u8c2, u8c1]
        rw [if_neg (by omega), if_neg (by omega), if_pos
            (by omega : 224 ≤ 224 + n / 4096 ∧ 224 + n / 4096 ≤ 239),
          if_pos (by omega : 128 ≤ 128 + n / 64 % 64 ∧ 128 + n / 64 % 64 ≤ 191),
          if_pos (by omega : 128 ≤ 128 + n % 64 ∧ 128 + n % 64 ≤ 191)]
        exact congrArg (fun x => x :: u8go l) (by omega)
      next h3 =>
        simp only [List.cons_append, List.nil_append, List.append_eq,
          List.singleton_append, u8go, u8c3, u8c2, u8c1]
        rw [if_neg (by omega), if_neg (by omega), if_neg (by omega),
          if_pos (by omega : 240 ≤ 240 + n / 262144 ∧ 240 + n / 262144 ≤ 244),
          if_pos (by omega : 128 ≤ 128 + n / 4096 % 64 ∧ 128 + n / 4096 % 64 ≤ 191),
          if_pos (by omega : 128 ≤ 128 + n / 64 % 64 ∧ 128 + n / 64 % 64 ≤ 191),
          if_pos (by omega : 128 ≤ 128 + n % 64 ∧ 128 + n % 64 ≤ 191)]
        exact congrArg (fun x => x :: u8go l) (by omega)

theorem u8go_flat (ps : List Nat) (hv : ∀ c ∈ ps, c < 1114112) :
    u8go (ps.flatMap utf8Bytes) = ps := by
  induction ps with
  | nil => rfl
  | cons c rest ih =>
    rw [List.flatMap_cons, u8go_utf8Bytes c (hv c (List.mem_cons_self _ _)),
      ih (fun x hx => hv x (List.mem_cons_of_mem _ hx))]

theorem pctUnescape_cons (c : Nat) (l : List Nat) (hc : c ≠ 37) :
    pctUnescape (c :: l) = (false, c) :: pctUnescape l := by
  rw [pctUnescape.eq_def]
  split <;> simp_all

theorem pctUnescape_pctEnc (b : Nat) (hb : b < 256) (l : List Nat) :
    pctUnescape (pctEnc b ++ l) = (true, b) :: pctUnescape l := by
  have h1 : b / 16 < 16 := by omega
  have h2 : b % 16 < 16 := by omega
  simp only [pctEnc, List.cons_append, List.nil_append, pctUnescape,
    isHexCP_hexU _ h1, isHexCP_hexU _ h2, Bool.and_self, if_true,
    hexVal_hexU _ h1, hexVal_hexU _ h2]
  exact congrArg (fun x => (true, x) :: pctUnescape l) (by omega)

theorem pctUnescape_pctRun (bs : List Nat) (hbs : ∀ b ∈ bs, b < 256) (l : List Nat) :
    pctUnescape (bs.flatMap pctEnc ++ l) =
      bs.map (fun b => (true, b)) ++ pctUnescape l := by
  induction bs with
  | nil => simp
  | cons b rest ih =>
    rw [List.flatMap_cons, List.append_assoc,
      pctUnescape_pctEnc b (hbs b (List.mem_cons_self _ _)),
      ih (fun x hx => hbs x (List.mem_cons_of_mem _ hx)), List.map_cons,
      List.cons_append]

theorem groupDec_trueRun (bs : List Nat) (acc : List Nat) (rest : List (Bool × Nat)) :
    groupDec acc (bs.map (fun b => (true, b)) ++ rest) =
      groupDec (bs.reverse ++ acc) rest := by
  induction bs generalizing acc with
  | nil => simp
  | cons b t ih =>
    rw [List.map_cons, List.cons_append]
    show groupDec (b :: acc) (t.map (fun b => (true, b)) ++ rest) = _
    rw [ih (b :: acc), List.reverse_cons, List.append_assoc, List.singleton_append]

theorem isUnreservedCP_ne_37 (c : Nat) (h : isUnreservedCP c = true) : c ≠ 37 := by
  intro hc
  subst hc
  simp [isUnreservedCP] at h

theorem decode_encode_aux (s : List Nat) (hs : ∀ c ∈ s, c < 1114112) :
    ∀ ps : List Nat, (∀ c ∈ ps, c < 1114112) →
      groupDec (ps.flatMap utf8Bytes).reverse (pctUnescape (encodeURIComponentCP s)) =
        ps ++ s := by
  induction s with
  | nil =>
    intro ps hps
    show utf8Decode (ps.flatMap utf8Bytes).reverse.reverse = ps ++ []
    rw [List.reverse_reverse, List.append_nil]
    exact u8go_flat ps hps
  | cons c rest ih =>
    intro ps hps
    have hc : c < 1114112 := hs c (List.mem_cons_self _ _)
    have hrest : ∀ x ∈ rest, x < 1114112 := fun x hx => hs x (List.mem_cons_of_mem _ hx)
    show groupDec _ (pctUnescape
      ((if isUnreservedCP c then [c] else (utf8Bytes c).flatMap pctEnc) ++
        encodeURIComponentCP rest)) = _
    split
    next hu =>
      rw [List.singleton_append, pctUnescape_cons c _ (isUnreservedCP_ne_37 c hu)]
      show utf8Decode (ps.flatMap utf8Bytes).reverse.reverse ++
        c :: groupDec [] (pctUnescape (encodeURIComponentCP rest)) = _
      have h0 : groupDec ((List.flatMap [] utf8Bytes).reverse)
          (pctUnescape (encodeURIComponentCP rest)) = [] ++ rest :=
        ih hrest [] (by intro x hx; cases hx)
      simp only [List.flatMap_nil, List.reverse_nil, List.nil_append] at h0
      rw [List.reverse_reverse, h0]
      show u8go (ps.flatMap utf8Bytes) ++ c :: rest = ps ++ c :: rest
      rw [u8go_flat ps hps]
    next hu =>
      rw [pctUnescape_pctRun (utf8Bytes c) (utf8Bytes_lt_256 c hc) _,
        groupDec_trueRun]
      have : (utf8Bytes c).reverse ++ (ps.flatMap utf8Bytes).reverse =
          ((ps ++ [c]).flatMap utf8Bytes).reverse := by
        rw [List.flatMap_append, List.reverse_append]
        simp
      rw [this, ih hrest (ps ++ [c]) (by
        intro x hx
        rcases List.mem_append.mp hx with h | h
        · exact hps x h
        · simp at h; omega), List.append_assoc, List.singleton_append]

/-- Percent-decoding inverts percent-encoding on any well-formed string. -/
theorem decode_encode (s : List Nat) (hs : ∀ c ∈ s, c < 1114112) :
    decodeURIComponentCP (encodeURIComponentCP s) = s := by
  have := decode_encode_aux s hs [] (by intro x hx; cases hx)
  simpa [decodeURIComponentCP] using this

/-! ## Split/join lemmas for path segments -/

theorem splitSep_ne_nil (sep : Nat) (l : List Nat) : splitSep sep l ≠ [] := by
  induction l with
  | nil => simp [splitSep]
  | cons c rest ih =>
    simp only [splitSep]
    split
    · simp
    · split
      · simp
      · simp

theorem joinSep_cons_head (sep c : Nat) (s : List Nat) (ss : List (List Nat)) :
    joinSep sep ((c :: s) :: ss) = c :: joinSep sep (s :: ss) := by
  cases ss <;> rfl

theorem joinSep_splitSep (sep : Nat) (l : List Nat) :
    joinSep sep (splitSep sep l) = l := by
  induction l with
  | nil => rfl
  | cons c rest ih =>
    simp only [splitSep]
    split
    next hc =>
      subst hc
      match h : splitSep c rest with
      | [] => exact absurd h (splitSep_ne_nil c rest)
      | s :: ss =>
        show joinSep c ([] :: s :: ss) = c :: rest
        show [] ++ c :: joinSep c (s :: ss) = c :: rest
        rw [List.nil_append, ← h, ih]
    next hc =>
      match h : splitSep sep rest with
      | [] => exact absurd h (splitSep_ne_nil sep rest)
      | s :: ss =>
        show joinSep sep ((c :: s) :: ss) = c :: rest
        rw [joinSep_cons_head, ← h, ih]

theorem splitSep_no_sep (sep : Nat) (x : List Nat) (hx : ∀ c ∈ x, c ≠ sep) :
    splitSep sep x = [x] := by
  induction x with
  | nil => rfl
  | cons c rest ih =>
    simp only [splitSep]
    rw [if_neg (hx c (List.mem_cons_self _ _)),
      ih (fun a ha => hx a (List.mem_cons_of_mem _ ha))]

theorem splitSep_append_sep (sep : Nat) (x t : List Nat) (hx : ∀ c ∈ x, c ≠ sep) :
    splitSep sep (x ++ sep :: t) = x :: splitSep sep t := by
  induction x with
  | nil =>
    simp [splitSep]
  | cons c rest ih =>
    have hr := ih (fun a ha => hx a (List.mem_cons_of_mem _ ha))
    rw [List.cons_append]
    simp only [splitSep, hr]
    rw [if_neg (hx c (List.mem_cons_self _ _))]

theorem splitSep_joinSep (sep : Nat) (xs : List (List Nat)) (hne : xs ≠ [])
    (hx : ∀ x ∈ xs, ∀ c ∈ x, c ≠ sep) :
    splitSep sep (joinSep sep xs) = xs := by
  induction xs with
  | nil => exact absurd rfl hne
  | cons x rest ih =>
    match rest with
    | [] =>
      show splitSep sep x = [x]
      exact splitSep_no_sep sep x (hx x (List.mem_cons_self _ _))
    | y :: t =>
      show splitSep sep (x ++ sep :: joinSep sep (y :: t)) = x :: y :: t
      rw [splitSep_append_sep sep x _ (hx x (List.mem_cons_self _ _)),
        ih (by simp) (fun a ha => hx a (List.mem_cons_of_mem _ ha))]

theorem splitSep_mem (sep : Nat) (l : List Nat) :
    ∀ x ∈ splitSep sep l, ∀ c ∈ x, c ∈ l ∧ c ≠ sep := by
  induction l with
  | nil =>
    intro x hx c hc
    simp [splitSep] at hx
    subst hx
    cases hc
  | cons a rest ih =>
    intro x hx c hc
    simp only [splitSep] at hx
    split at hx
    next ha =>
      rcases List.mem_cons.mp hx with h | h
      · subst h; cases hc
      · have := ih x h c hc
        exact ⟨List.mem_cons_of_mem _ this.1, this.2⟩
    next ha =>
      revert hx
      match h : splitSep sep rest with
      | [] => exact absurd h (splitSep_ne_nil sep rest)
      | s :: ss =>
        intro hx
        rcases List.mem_cons.mp hx with h' | h'
        · subst h'
          rcases List.mem_cons.mp hc with h2 | h2
          · subst h2; exact ⟨List.mem_cons_self _ _, ha⟩
          · have := ih s (h ▸ List.mem_cons_self _ _) c h2
            exact ⟨List.mem_cons_of_mem _ this.1, this.2⟩
        · have := ih x (h ▸ List.mem_cons_of_mem _ h') c hc
          exact ⟨List.mem_cons_of_mem _ this.1, this.2⟩

theorem hexU_ne_47 (x : Nat) : hexU x ≠ 47 := by
  unfold hexU
  split <;> omega

theorem isUnreservedCP_ne_47 (c : Nat) (h : isUnreservedCP c = true) : c ≠ 47 := by
  intro hc
  subst hc
  simp [isUnreservedCP] at h

theorem encode_ne_47 (s : List Nat) : ∀ c ∈ encodeURIComponentCP s, c ≠ 47 := by
  induction s with
  | nil => intro c hc; cases hc
  | cons a rest ih =>
    intro c hc
    simp only [encodeURIComponentCP] at hc
    rcases List.mem_append.mp hc with h | h
    · split at h
      next hu =>
        rw [List.mem_singleton] at h
        subst h
        exact isUnreservedCP_ne_47 _ hu
      next hu =>
        rcases List.mem_flatMap.mp h with ⟨b, _, hb2⟩
        simp [pctEnc] at hb2
        rcases hb2 with h' | h' | h'
        · omega
        · subst h'; exact hexU_ne_47 _
        · subst h'; exact hexU_ne_47 _
    · exact ih c h

/-! ## Helper lemmas -/

theorem validCP_lt (n : Nat) (h : ValidCP n) : n < 1114112 := by
  unfold ValidCP at h
  omega

theorem map_self {α : Type} (f : α → α) :
    ∀ l : List α, (∀ x ∈ l, f x = x) → l.map f = l := by
  intro l h
  induction l with
  | nil => rfl
  | cons a rest ih =>
    rw [List.map_cons, h a (List.mem_cons_self _ _),
      ih (fun x hx => h x (List.mem_cons_of_mem _ hx))]

theorem splitAtFirst_not_mem (c : Nat) (l : List Nat) (h : c ∉ l) :
    splitAtFirst c l = (l, []) := by
  induction l with
  | nil => rfl
  | cons x rest ih =>
    simp only [splitAtFirst]
    rw [if_neg (by intro hx; exact h (hx ▸ List.mem_cons_self _ _)),
      ih (fun hx => h (List.mem_cons_of_mem _ hx))]

theorem getA_setA (attrs : List (List Nat × List Nat)) (n v : List Nat) :
    lookupAssoc (setAttrL attrs n v) n = some v := by
  induction attrs with
  | nil => simp [setAttrL, lookupAssoc]
  | cons kv rest ih =>
    obtain ⟨k, w⟩ := kv
    simp only [setAttrL]
    split
    next h => simp [lookupAssoc]
    next h =>
      simp only [lookupAssoc]
      rw [if_neg h]
      exact ih

theorem getA_setA_ne (attrs : List (List Nat × List Nat)) (n m v : List Nat)
    (h : n ≠ m) :
    lookupAssoc (setAttrL attrs n v) m = lookupAssoc attrs m := by
  induction attrs with
  | nil => simp [setAttrL, lookupAssoc, h]
  | cons kv rest ih =>
    obtain ⟨k, w⟩ := kv
    simp only [setAttrL]
    split
    next hk =>
      subst hk
      simp only [lookupAssoc]
      rw [if_neg h, if_neg h]
    next hk =>
      simp only [lookupAssoc]
      split
      · rfl
      · exact ih

/-! ## C3 -/

/-- C3: Path/URL round-trip. For every syntactically valid ArchivePath
(all codepoints Unicode scalar values, including spaces, percent signs and
non-ASCII), stripping the virtual base from `inZipPathToUrl`'s output and
percent-decoding each `/`-separated segment, as `parseUrl` does, yields
exactly the original path. -/
theorem c3_path_roundtrip (p : List Nat) (hv : ∀ c ∈ p, ValidCP c) :
    fromVirtualUrl (inZipPathToUrl p) = p := by
  unfold fromVirtualUrl inZipPathToUrl
  rw [List.drop_left]
  rw [splitSep_joinSep 47 _
    (by
      intro h
      have := List.map_eq_nil_iff.mp h
      exact splitSep_ne_nil 47 p this)
    (by
      intro x hx c hc
      obtain ⟨seg, _, rfl⟩ := List.mem_map.mp hx
      exact encode_ne_47 seg c hc)]
  rw [List.map_map]
  rw [map_self _ _ (fun seg hseg => by
    show decodeURIComponentCP (encodeURIComponentCP seg) = seg
    exact decode_encode seg (fun c hc =>
      validCP_lt c (hv c ((splitSep_mem 47 p seg hseg c hc).1))))]
  exact joinSep_splitSep 47 p

/-- Witness for C3 at a path containing a space, a percent sign and a
non-ASCII character. -/
theorem c3_path_roundtrip_witness :
    (∀ c ∈ cp "dir ü/100%.html", ValidCP c) ∧
      fromVirtualUrl (inZipPathToUrl (cp "dir ü/100%.html")) = cp "dir ü/100%.html" :=
  ⟨by decide, c3_path_roundtrip _ (by decide)⟩

/-! ## C2 -/

/-- C2: `parseUrl` is total and degrades instead of raising: an input the
URL parser cannot resolve against the reference URL comes back unchanged
with `inZip` false, and a well-formed URL under the virtual base whose
decoded archive path has no store entry also comes back unchanged with
`inZip` false. -/
theorem c2_parseUrl_degrades (files : List (List Nat × FileEntry))
    (url : List Nat) (refUrl : Option (List Nat)) :
    (resolveURL url refUrl = none →
      parseUrl files url refUrl = ⟨url, false, none, none, none, [], []⟩) ∧
    (∀ abs : URLRec, resolveURL url refUrl = some abs →
      prefixOfCP virtualBase (urlHref abs) = true →
      lookupAssoc files
        (fromVirtualUrl (urlHref ⟨abs.scheme, abs.auth, abs.segs, [], []⟩)) = none →
      parseUrl files url refUrl = ⟨url, false, none, none, none, [], []⟩) := by
  constructor
  · intro h
    unfold parseUrl
    rw [h]
  · intro abs h hpre hlook
    unfold parseUrl
    rw [h]
    simp only [hpre, if_true]
    rw [hlook]

/-- Witness for C2: an unresolvable relative reference with no base, and a
well-formed in-archive-looking URL whose path has no entry in an empty
store. -/
theorem c2_parseUrl_degrades_witness :
    parseUrl [] (cp "foo.html") none =
      ⟨cp "foo.html", false, none, none, none, [], []⟩ ∧
    parseUrl [] (cp "ext://viewer/!/missing.html") none =
      ⟨cp "ext://viewer/!/missing.html", false, none, none, none, [], []⟩ :=
  ⟨(c2_parseUrl_degrades [] (cp "foo.html") none).1 (by decide),
   (c2_parseUrl_degrades [] (cp "ext://viewer/!/missing.html") none).2
     ⟨cp "ext", cp "viewer", [cp "!", cp "missing.html"], [], []⟩
     (by decide) (by decide) rfl⟩

/-! ## C7 -/

/-- C7: every child-chain construction builds a new sequence equal to the
parent chain plus the appended reference URL: the meta-refresh and frame
sites append the reference URL itself, and the `ComplexUrlFetcher`
constructor appends the anchor-stripped reference URL, which equals the
reference URL whenever it carries no fragment (every call site passes a
fragment-free virtual URL). Chains are persistent values, so the parent
chain is never mutated by the construction. -/
theorem c7_chain_append (chain : List (List Nat)) (refUrl : List Nat) :
    metaRecurseChain chain refUrl = chain ++ [refUrl] ∧
    frameRecurseChain chain refUrl = chain ++ [refUrl] ∧
    (refUrl ≠ [] → 35 ∉ refUrl → fetcherChain chain refUrl = chain ++ [refUrl]) := by
  refine ⟨rfl, rfl, ?_⟩
  intro hne hnh
  unfold fetcherChain jsonClone
  rw [if_neg hne]
  unfold splitUrlByAnchor
  rw [splitAtFirst_not_mem 35 refUrl hnh]

/-- Witness for C7 at a one-element parent chain and a fragment-free
reference URL. -/
theorem c7_chain_append_witness :
    metaRecurseChain [cp "ext://viewer/!/A.html"] (cp "ext://viewer/!/B.html") =
      [cp "ext://viewer/!/A.html", cp "ext://viewer/!/B.html"] ∧
    frameRecurseChain [cp "ext://viewer/!/A.html"] (cp "ext://viewer/!/B.html") =
      [cp "ext://viewer/!/A.html", cp "ext://viewer/!/B.html"] ∧
    fetcherChain [cp "ext://viewer/!/A.html"] (cp "ext://viewer/!/B.html") =
      [cp "ext://viewer/!/A.html", cp "ext://viewer/!/B.html"] :=
  ⟨(c7_chain_append _ _).1, (c7_chain_append _ _).2.1,
   (c7_chain_append [cp "ext://viewer/!/A.html"] (cp "ext://viewer/!/B.html")).2.2
     (by decide) (by decide)⟩

/-! ## C8 -/

/-- C8: idempotent locator issuance — for a path present in the store and
no transform, `fetchFile` returns the entry's own locator and leaves the
state unchanged, so a second untransformed call returns the identical
locator; for a path absent from the store it returns null rather than
raising. -/
theorem c8_fetchFile_idempotent (fuel fuel' : Nat) (st : VState) (p : List Nat)
    (chain chain' : List (List Nat)) :
    (∀ f : FileEntry, lookupAssoc st.inZipFiles p = some f →
      fetchFileF fuel st (some p) RW.noRW chain = (some f.url, st) ∧
      fetchFileF fuel' (fetchFileF fuel st (some p) RW.noRW chain).2 (some p)
          RW.noRW chain' =
        fetchFileF fuel st (some p) RW.noRW chain) ∧
    (lookupAssoc st.inZipFiles p = none →
      fetchFileF fuel st (some p) RW.noRW chain = (none, st)) := by
  constructor
  · intro f hf
    have h1 : fetchFileF fuel st (some p) RW.noRW chain = (some f.url, st) := by
      simp only [fetchFileF, hf]
    refine ⟨h1, ?_⟩
    rw [h1]
    simp only [fetchFileF, hf]
  · intro hf
    simp only [fetchFileF, hf]

/-- Witness for C8 on the concrete store: a present path yields its stored
locator with the state untouched, an absent path yields null. -/
theorem c8_fetchFile_idempotent_witness :
    fetchFileF 1 cssSelfStore (some (cp "self.css")) RW.noRW [] =
      (some (cp "blob:css0"), cssSelfStore) ∧
    fetchFileF 1 cssSelfStore (some (cp "missing.css")) RW.noRW [] =
      (none, cssSelfStore) :=
  ⟨((c8_fetchFile_idempotent 1 1 cssSelfStore (cp "self.css") [] []).1
      cssSelfEntry rfl).1,
   (c8_fetchFile_idempotent 1 1 cssSelfStore (cp "missing.css") [] []).2 rfl⟩

/-! ## C9 -/

/-- C9: rewritten-locator provenance — whenever `fetchFile` applies a
rewrite transform to a stored path, the issued locator is recorded in
`blobUrlToInZipPath` mapped to the originating ArchivePath and added to
`rewrittenBlobUrl`, so the path can be recovered from the locator. -/
theorem c9_rewritten_provenance (fuel : Nat) (st : VState) (p : List Nat)
    (chain : List (List Nat)) (kind : RW) (hk : kind ≠ RW.noRW)
    (f : FileEntry) (hf : lookupAssoc st.inZipFiles p = some f) :
    ∃ u st', fetchFileF fuel st (some p) kind chain = (some u, st') ∧
      lookupAssoc st'.blobUrlToInZipPath u = some p ∧
      u ∈ st'.rewrittenBlobUrl := by
  cases kind with
  | noRW => exact absurd rfl hk
  | cssFileRW =>
    simp only [fetchFileF, hf]
    refine ⟨_, _, rfl, ?_, ?_⟩
    · simp [lookupAssoc]
    · exact List.mem_cons_self _ _
  | docRW =>
    simp only [fetchFileF, hf]
    refine ⟨_, _, rfl, ?_, ?_⟩
    · simp [lookupAssoc]
    · exact List.mem_cons_self _ _

/-- Witness for C9: the stylesheet transform applied to the stored
stylesheet records the issued locator's provenance. -/
theorem c9_rewritten_provenance_witness :
    ∃ u st',
      fetchFileF 3 cssSelfStore (some (cp "self.css")) RW.cssFileRW [] =
        (some u, st') ∧
      lookupAssoc st'.blobUrlToInZipPath u = some (cp "self.css") ∧
      u ∈ st'.rewrittenBlobUrl :=
  c9_rewritten_provenance 3 cssSelfStore (cp "self.css") [] RW.cssFileRW
    (by decide) cssSelfEntry rfl

/-! ## C10 -/

/-- C10 (implicit): `fetchPage` discards the query string of the requested
URL — its result is exactly the page-transformed `fetchFile` locator with
only the fragment of that URL appended (and the same state), so a query
never appears in the returned URL. -/
theorem c10_fetchPage_drops_search (fuel : Nat) (st : VState)
    (pathO : Option (List Nat)) (url : List Nat) (chain : List (List Nat)) :
    fetchPageF (fuel + 1) st pathO url chain =
      ((fetchFileF fuel st pathO RW.docRW chain).1.map
          (fun u => u ++ (splitUrl url).2.2),
        (fetchFileF fuel st pathO RW.docRW chain).2) := by
  by_cases hu : url = []
  · subst hu
    simp [fetchPageF, splitUrl, splitAtFirst]
  · simp [fetchPageF, hu]

/-! ## C1 -/

/-- C1 failing input: a stylesheet whose single `@import` resolves back
into the recursion chain. The cycle branch of `startFetches` returns its
inert value from the task without ever assigning the entry's `newUrl`
(view.js line 744 returns before line 756), so the entry still holds null
and the final substitution writes the JS string coercion of null — the
text "null" — into the stylesheet, not the inert blank target. -/
theorem c1_cycle_substitutes_null :
    (processCssTextF 5 cssSelfStore [CssItem.importUrl (cp "self.css")]
        (inZipPathToUrl (cp "self.css")) []).1 = cp "null" ∧
    (startFetchesF 4 cssSelfStore
        [(0, ⟨cp "self.css", none, RW.cssFileRW⟩)]
        [inZipPathToUrl (cp "self.css")]).1 =
      [(0, ⟨cp "self.css", none, RW.cssFileRW⟩)] ∧
    cp "null" ≠ cp "about:blank" := by decide

/-! ## C4 -/

/-- C4 counterexample: inside a MathML subtree the rewriter handles only
`href`; an `xlink:href` resolving in-archive to the document's own path is
left untouched instead of being rewritten to its fragment, refuting the
claim as stated for the MathML `xlink:href` combination. -/
theorem c4_math_xlink_counterexample :
    ((scanNode selfDocStore (inZipPathToUrl (cp "m.html")) (cp "m.html") []
        (cp "math") mathXlinkElem).1.getA (cp "xlink:href") =
      some (cp "m.html#x")) ∧
    (parseUrl selfDocStore.inZipFiles (cp "m.html#x")
        (some (inZipPathToUrl (cp "m.html")))).inZip = true ∧
    (parseUrl selfDocStore.inZipFiles (cp "m.html#x")
        (some (inZipPathToUrl (cp "m.html")))).inZipPath = some (cp "m.html") ∧
    (parseUrl selfDocStore.inZipFiles (cp "m.html#x")
        (some (inZipPathToUrl (cp "m.html")))).hash = cp "#x" ∧
    cp "m.html#x" ≠ cp "#x" := by decide

/-- C4 (amended): self-link preservation holds for the attributes the code
rewrites — `href` and `xlink:href` in an SVG subtree, `href` (only) in a
MathML subtree, and `a`/`area` `href` elsewhere. A reference resolving
in-archive to the document's own path becomes exactly its fragment, or `#`
when there is no fragment, never a locator; one resolving to a different
in-archive path becomes that resource's locator (its `finalUrl`). -/
theorem c4_selflink_amended (st : VState) (refUrl inZipPath h : List Nat)
    (chain : List (List Nat)) :
    (((parseUrl st.inZipFiles h (some refUrl)).inZip = true →
      (parseUrl st.inZipFiles h (some refUrl)).inZipPath = some inZipPath →
      selfLink st.inZipFiles refUrl inZipPath h =
        (if (parseUrl st.inZipFiles h (some refUrl)).hash ≠ [] then
          (parseUrl st.inZipFiles h (some refUrl)).hash
         else cp "#")) ∧
     ((parseUrl st.inZipFiles h (some refUrl)).inZip = true →
      (parseUrl st.inZipFiles h (some refUrl)).inZipPath ≠ some inZipPath →
      selfLink st.inZipFiles refUrl inZipPath h =
        (parseUrl st.inZipFiles h (some refUrl)).url)) ∧
    (∀ e : Elem, e.getA (cp "href") = some h →
      (scanNode st refUrl inZipPath chain (cp "svg") e).1.getA (cp "href") =
        some (selfLink st.inZipFiles refUrl inZipPath h)) ∧
    (∀ e : Elem, e.getA (cp "xlink:href") = some h →
      (scanNode st refUrl inZipPath chain (cp "svg") e).1.getA (cp "xlink:href") =
        some (selfLink st.inZipFiles refUrl inZipPath h)) ∧
    (∀ e : Elem, e.getA (cp "href") = some h →
      (scanNode st refUrl inZipPath chain (cp "math") e).1.getA (cp "href") =
        some (selfLink st.inZipFiles refUrl inZipPath h)) ∧
    (∀ (e : Elem) (rootName : List Nat), rootName ≠ cp "svg" → rootName ≠ cp "math" →
      (lowerCP e.tag = cp "a" ∨ lowerCP e.tag = cp "area") →
      e.getA (cp "href") = some h →
      (scanNode st refUrl inZipPath chain rootName e).1.getA (cp "href") =
        some (selfLink st.inZipFiles refUrl inZipPath h)) := by
  refine ⟨⟨?_, ?_⟩, ?_, ?_, ?_, ?_⟩
  · intro h1 h2
    unfold selfLink
    rw [if_pos h1, if_neg (by rw [h2]; exact fun hne => hne rfl)]
  · intro h1 h2
    unfold selfLink
    rw [if_pos h1, if_pos h2]
  · intro e he
    simp only [scanNode, if_pos rfl]
    rw [he]
    cases hx : (Elem.setA e (cp "href") (selfLink st.inZipFiles refUrl inZipPath h)).getA
        (cp "xlink:href") with
    | none =>
      simp only [hx]
      show lookupAssoc (setAttrL e.attrs (cp "href") _) (cp "href") = _
      exact getA_setA _ _ _
    | some hx2 =>
      simp only [hx]
      show lookupAssoc (setAttrL (setAttrL e.attrs (cp "href") _) (cp "xlink:href") _)
        (cp "href") = _
      rw [getA_setA_ne _ _ _ _ (by decide)]
      exact getA_setA _ _ _
  · intro e he
    simp only [scanNode, if_pos rfl]
    cases hh : e.getA (cp "href") with
    | none =>
      simp only [hh, he]
      show lookupAssoc (setAttrL e.attrs (cp "xlink:href") _) (cp "xlink:href") = _
      exact getA_setA _ _ _
    | some hv =>
      simp only [hh]
      have he2 : (Elem.setA e (cp "href")
          (selfLink st.inZipFiles refUrl inZipPath hv)).getA (cp "xlink:href") =
          some h := by
        show lookupAssoc (setAttrL e.attrs (cp "href") _) (cp "xlink:href") = _
        rw [getA_setA_ne _ _ _ _ (by decide)]
        exact he
      rw [he2]
      show lookupAssoc (setAttrL (setAttrL e.attrs (cp "href") _) (cp "xlink:href") _)
        (cp "xlink:href") = _
      exact getA_setA _ _ _
  · intro e he
    simp only [scanNode, if_neg (by decide : ¬(cp "math" = cp "svg")), if_pos rfl]
    rw [he]
    show lookupAssoc (setAttrL e.attrs (cp "href") _) (cp "href") = _
    exact getA_setA _ _ _
  · intro e rootName hs hm htag he
    rcases htag with htag | htag <;>
    · simp only [scanNode, if_neg hs, if_neg hm, htag]
      rw [if_neg (by decide), if_neg (by decide), if_neg (by decide),
        if_neg (by decide), if_neg (by decide), if_neg (by decide),
        if_pos (by decide)]
      rw [he]
      cases hsty : (Elem.setA e (cp "href")
          (selfLink st.inZipFiles refUrl inZipPath h)).getA (cp "style") with
      | none =>
        simp only [hsty]
        show lookupAssoc (setAttrL e.attrs (cp "href") _) (cp "href") = _
        exact getA_setA _ _ _
      | some sv =>
        simp only [hsty]
        show lookupAssoc (setAttrL e.attrs (cp "href") _) (cp "href") = _
        exact getA_setA _ _ _

/-- Witness for the amended C4: on the one-page store, an anchor href
pointing at its own page with a fragment rewrites to exactly `#x`. -/
theorem c4_selflink_amended_witness :
    (scanNode selfDocStore (inZipPathToUrl (cp "m.html")) (cp "m.html") [] (cp "html")
        (Elem.mk (cp "a") [(cp "href", cp "m.html#x")] [] [])).1.getA (cp "href") =
      some (selfLink selfDocStore.inZipFiles (inZipPathToUrl (cp "m.html"))
        (cp "m.html") (cp "m.html#x")) ∧
    selfLink selfDocStore.inZipFiles (inZipPathToUrl (cp "m.html")) (cp "m.html")
      (cp "m.html#x") = cp "#x" :=
  ⟨(c4_selflink_amended selfDocStore (inZipPathToUrl (cp "m.html")) (cp "m.html")
      (cp "m.html#x") []).2.2.2.2 (Elem.mk (cp "a") [(cp "href", cp "m.html#x")] [] [])
      (cp "html") (by decide) (by decide) (Or.inl (by decide)) rfl,
   by decide⟩

/-! ## C5 -/

/-- C5: frame cycle termination — a frame/iframe `src` resolving to an
in-archive page whose virtual URL is already present in the recursion
chain extended with the parent document's URL is set to the inert
`about:blank` and spawns no fetch task; consequently rewriting the
concrete mutually framing pair A/B completes with a fixed result (the
same at larger fuel), and B's frame pointing back at A is inert. -/
theorem c5_frame_cycle (files : List (List Nat × FileEntry))
    (chain : List (List Nat)) (refUrl src : List Nat) :
    ((parseUrl files src (some refUrl)).inZip = true →
      (frameRecurseChain chain refUrl).contains
        (inZipPathToUrl ((parseUrl files src (some refUrl)).inZipPath.getD [])) =
          true →
      frameSrcCase files chain refUrl src = (cp "about:blank", [])) ∧
    ((fetchPageF 20 cycleStore (some (cp "A.html")) [] []).1 =
        some (cp "blob:1") ∧
      (fetchPageF 40 cycleStore (some (cp "A.html")) [] []).1 =
        (fetchPageF 20 cycleStore (some (cp "A.html")) [] []).1 ∧
      (match lookupAssoc
          (fetchPageF 20 cycleStore (some (cp "A.html")) [] []).2.blobStore
          (cp "blob:0") with
       | some b => (childAt (childAt (blobRoot b) 1) 0).getA (cp "src")
       | none => none) = some (cp "about:blank")) := by
  constructor
  · intro h1 h2
    unfold frameSrcCase
    rw [if_pos ⟨h1, h2⟩]
  · exact ⟨by decide, by decide, by decide⟩

/-- Witness for C5: B's frame back at A, with A already in the extended
chain, is neutralized with no task spawned. -/
theorem c5_frame_cycle_witness :
    frameSrcCase cycleStore.inZipFiles [inZipPathToUrl (cp "A.html")]
      (inZipPathToUrl (cp "B.html")) (cp "A.html") = (cp "about:blank", []) :=
  (c5_frame_cycle cycleStore.inZipFiles [inZipPathToUrl (cp "A.html")]
    (inZipPathToUrl (cp "B.html")) (cp "A.html")).1 (by decide) (by decide)

/-! ## C6 -/

/-- C6: meta-refresh rewriting. With the parsed header `⟨t, u⟩` (nonempty
target) and the target page compared by anchor-stripped URL: (a) a target
resolving to the current page keeps the delay and carries only the
fragment; (b) a different in-archive page not in the chain leaves the
content for a deferred recursive page fetch, and the deferred task writes
the delay plus the recursively fetched locator (or the resolved URL when
the fetch yields nothing); (c) an external target becomes the delay plus a
freshly created locator of the synthesized redirect-notice page — whose
body links the external URL, HTML-escaped — with the target fragment
preserved. -/
theorem c6_meta_refresh (st : VState) (chain : List (List Nat))
    (refUrl content t u : List Nat) (hparse : parseHeaderRefresh content = ⟨t, u⟩)
    (hu : u ≠ []) :
    ((splitUrlByAnchor (match (parseUrl st.inZipFiles u (some refUrl)).virtualUrl with
        | some v => v
        | none => (parseUrl st.inZipFiles u (some refUrl)).url)).1 =
          (splitUrlByAnchor refUrl).1 →
      metaRefreshCase st chain refUrl content =
        (t ++ (if (splitUrlByAnchor (match
              (parseUrl st.inZipFiles u (some refUrl)).virtualUrl with
            | some v => v
            | none => (parseUrl st.inZipFiles u (some refUrl)).url)).2 ≠ [] then
            cp ";url=" ++ (splitUrlByAnchor (match
              (parseUrl st.inZipFiles u (some refUrl)).virtualUrl with
            | some v => v
            | none => (parseUrl st.inZipFiles u (some refUrl)).url)).2
          else []), [], st)) ∧
    ((splitUrlByAnchor (match (parseUrl st.inZipFiles u (some refUrl)).virtualUrl with
        | some v => v
        | none => (parseUrl st.inZipFiles u (some refUrl)).url)).1 ≠
          (splitUrlByAnchor refUrl).1 →
      chain.contains (splitUrlByAnchor (match
          (parseUrl st.inZipFiles u (some refUrl)).virtualUrl with
        | some v => v
        | none => (parseUrl st.inZipFiles u (some refUrl)).url)).1 = false →
      (parseUrl st.inZipFiles u (some refUrl)).inZip = true →
      metaRefreshCase st chain refUrl content =
        (content,
          [TaskAct.metaPage t (parseUrl st.inZipFiles u (some refUrl)).inZipPath
            (parseUrl st.inZipFiles u (some refUrl)).url
            (metaRecurseChain chain refUrl)], st)) ∧
    (∀ (fuel : Nat) (pathO : Option (List Nat)) (url' : List Nat)
        (chain' : List (List Nat)) (root : Elem) (addr : List Nat),
      runTasksF (fuel + 1) st root [(addr, TaskAct.metaPage t pathO url' chain')] =
        (setAtAddr root addr (fun e => e.setA (cp "content")
            (t ++ cp ";url=" ++ (match (fetchPageF fuel st pathO url' chain').1 with
              | some u' => u'
              | none => url'))),
          (fetchPageF fuel st pathO url' chain').2)) ∧
    ((splitUrlByAnchor (match (parseUrl st.inZipFiles u (some refUrl)).virtualUrl with
        | some v => v
        | none => (parseUrl st.inZipFiles u (some refUrl)).url)).1 ≠
          (splitUrlByAnchor refUrl).1 →
      chain.contains (splitUrlByAnchor (match
          (parseUrl st.inZipFiles u (some refUrl)).virtualUrl with
        | some v => v
        | none => (parseUrl st.inZipFiles u (some refUrl)).url)).1 = false →
      (parseUrl st.inZipFiles u (some refUrl)).inZip = false →
      metaRefreshCase st chain refUrl content =
        (t ++ cp ";url=" ++
            (createObjectURL st ⟨cp "text/html",
              BCont.bytes (redirectPageHtml
                (parseUrl st.inZipFiles u (some refUrl)).url)⟩).1 ++
            (splitUrlByAnchor (match
                (parseUrl st.inZipFiles u (some refUrl)).virtualUrl with
              | some v => v
              | none => (parseUrl st.inZipFiles u (some refUrl)).url)).2,
          [],
          (createObjectURL st ⟨cp "text/html",
            BCont.bytes (redirectPageHtml
              (parseUrl st.inZipFiles u (some refUrl)).url)⟩).2)) := by
  refine ⟨?_, ?_, ?_, ?_⟩
  · intro hsame
    unfold metaRefreshCase
    rw [hparse]
    simp only [if_neg (by simpa using hu)]
    rw [if_neg (by simpa using hsame)]
  · intro hdiff hchain hzip
    unfold metaRefreshCase
    rw [hparse]
    simp only [if_neg (by simpa using hu)]
    rw [if_pos (by simpa using hdiff), if_neg (by simpa using hchain), if_pos hzip]
  · intro fuel pathO url' chain' root addr
    simp only [runTasksF]
  · intro hdiff hchain hzip
    unfold metaRefreshCase
    rw [hparse]
    simp only [if_neg (by simpa using hu)]
    rw [if_pos (by simpa using hdiff), if_neg (by simpa using hchain),
      if_neg (by simp [hzip])]

/-- Witness for C6: a fragment-only refresh on the page itself keeps the
delay and carries only the fragment. -/
theorem c6_meta_refresh_witness :
    metaRefreshCase selfDocStore [] (inZipPathToUrl (cp "m.html")) (cp "0;url=#sec") =
      (cp "0;url=#sec", [], selfDocStore) := by
  have h := (c6_meta_refresh selfDocStore [] (inZipPathToUrl (cp "m.html"))
    (cp "0;url=#sec") (cp "0") (cp "#sec") (by decide) (by decide)).1 (by decide)
  rw [h]
  rfl
